import Mathlib

/-!
Verification development for the diary/journal note-scanning engine
(`lib.go` / `main.go`).

Shallow embedding conventions:
* Go `time.Time` values are modelled at one-second granularity by `DateTime`
  (year/month/day/hour/minute/second as `Nat`); comparison (`Time.After`)
  is modelled through the order-preserving `DateTime.key`.
* Go maps (`map[string][]Tag`, `map[string][][]string`) are modelled as
  association lists together with `mapLookup` / `mapSet` / `mapDelete`;
  enumeration order of a Go map is unspecified, so any function that ranges
  over a map is modelled as a function of the association-list order, and
  statements about Go behaviour quantify over (or exhibit) such orders.
* `panic` is modelled as `Except.error`; `os.Open` / `os.Stat` results are
  passed in explicitly (`OpenResult`, `Option DateTime`).
* The external collaborators (git invocations, directory walking) are
  modelled by an `Env` record carrying their answers: the list of untracked
  files, the list of files changed since the marker revision, the stat
  oracle, the file-content oracle, the current wall-clock time, and the
  enumeration of the file tree used by the full-rescan walk.
-/

/-- Wall-clock timestamp at second granularity (model of Go `time.Time`). -/
structure DateTime where
  year : Nat
  month : Nat
  day : Nat
  hour : Nat
  minute : Nat
  second : Nat
deriving DecidableEq, Repr

/-- Order-preserving encoding of a `DateTime`: every field of a value produced
by the Go time parser is below 100 (year below 10000), so lexicographic
comparison agrees with this mixed-radix key. -/
def DateTime.key (d : DateTime) : Nat :=
  ((((d.year * 100 + d.month) * 100 + d.day) * 100 + d.hour) * 100 + d.minute) * 100 + d.second

/-- Model of Go `Time.After` (strictly later). -/
def DateTime.after (a b : DateTime) : Bool :=
  b.key < a.key

def isDigitCh (c : Char) : Bool :=
  '0' ≤ c && c ≤ '9'

/-- `\s` of the Go regexp package: `[\t\n\f\r ]`. -/
def isRegexSpace (c : Char) : Bool :=
  c == ' ' || c == '\t' || c == '\n' || c == '\x0c' || c == '\r'

/-- ASCII part of Go `unicode.IsSpace`, used by `strings.Fields`
(the engine's inputs are ASCII markdown lines). -/
def isGoSpace (c : Char) : Bool :=
  c == ' ' || c == '\t' || c == '\n' || c == '\x0b' || c == '\x0c' || c == '\r'

def splitSpaceRuns : List Char → List (List Char)
  | [] => [[]]
  | c :: rest =>
    if isGoSpace c then
      [] :: splitSpaceRuns rest
    else
      match splitSpaceRuns rest with
      | g :: gs => (c :: g) :: gs
      | [] => [[c]]

/-- Model of Go `strings.Fields`: whitespace-delimited tokens. -/
def goFields (s : String) : List String :=
  ((splitSpaceRuns s.toList).filter (fun g => g ≠ [])).map (fun g => ⟨g⟩)

def joinSep (sep : String) : List String → String
  | [] => ""
  | [x] => x
  | x :: rest => x ++ sep ++ joinSep sep rest

def listEndsWith (suf l : List Char) : Bool :=
  List.isSuffixOf suf l

/-- Model of Go `strings.HasSuffix`. -/
def strEndsWith (s suf : String) : Bool :=
  listEndsWith suf.toList s.toList

def strToNat (s : String) : Nat :=
  s.toList.foldl (fun a c => a * 10 + (c.toNat - 48)) 0

def pad2 (n : Nat) : String :=
  if n < 10 then "0" ++ toString n else toString n

/-- `Format("15:04:05")` of a `DateTime`. -/
def fmtHMS (d : DateTime) : String :=
  pad2 d.hour ++ ":" ++ pad2 d.minute ++ ":" ++ pad2 d.second

/-- Matcher for `dpattern = ^(\d\d\d\d)/(\d\d)/(\d\d\d\d)-(\d\d)-(\d\d)\.md$`,
returning the five captured groups.  The pattern is anchored on both sides and
has fixed width 21, so `FindAllStringSubmatch` yields at most one match and
the Go-side guards `len(ms) == 1 && len(ms[0]) == 6` always hold on a match. -/
def dpatternMatch (path : String) : Option (String × String × String × String × String) :=
  match path.toList with
  | [a, b, c, d, s1, e, f, s2, g, h, i, j, t1, k, l, t2, m, n, p, q, r] =>
    if isDigitCh a && isDigitCh b && isDigitCh c && isDigitCh d && s1 == '/' &&
       isDigitCh e && isDigitCh f && s2 == '/' &&
       isDigitCh g && isDigitCh h && isDigitCh i && isDigitCh j && t1 == '-' &&
       isDigitCh k && isDigitCh l && t2 == '-' &&
       isDigitCh m && isDigitCh n && p == '.' && q == 'm' && r == 'd' then
      some (⟨[a, b, c, d]⟩, ⟨[e, f]⟩, ⟨[g, h, i, j]⟩, ⟨[k, l]⟩, ⟨[m, n]⟩)
    else
      none
  | _ => none

def timeOfDayChars : List Char → Option (String × List Char)
  | h1 :: h2 :: ':' :: m1 :: m2 :: ':' :: s1 :: s2 :: rest =>
    if [h1, h2, m1, m2, s1, s2].all isDigitCh then
      some (⟨[h1, h2, ':', m1, m2, ':', s1, s2]⟩, rest)
    else
      none
  | _ => none

/-- Matcher for `mdTimePattern = ^##\s+(\d\d:\d\d:\d\d)\s*$`, returning the
captured `HH:MM:SS` group. -/
def mdTimeMatch (line : String) : Option String :=
  match line.toList with
  | '#' :: '#' :: c :: rest =>
    if isRegexSpace c then
      match timeOfDayChars (rest.dropWhile isRegexSpace) with
      | some (t, tail) => if tail.all isRegexSpace then some t else none
      | none => none
    else
      none
  | _ => none

def isLeapYear (y : Nat) : Bool :=
  (y % 4 == 0 && y % 100 != 0) || y % 400 == 0

def daysInMonth (y m : Nat) : Nat :=
  if m == 2 then (if isLeapYear y then 29 else 28)
  else if m == 4 || m == 6 || m == 9 || m == 11 then 30
  else 31

/-- Range validation performed by Go `time.ParseInLocation` on the
`15:04:05` components. -/
def validHMS (h mi s : Nat) : Bool :=
  h ≤ 23 && mi ≤ 59 && s ≤ 59

/-- Parse an `HH:MM:SS` string captured by `mdTimeMatch`, with the range
checks of Go `time.ParseInLocation` (`none` models a parse error). -/
def parseHMS (t : String) : Option (Nat × Nat × Nat) :=
  match t.toList with
  | [h1, h2, _, m1, m2, _, s1, s2] =>
    let h := (h1.toNat - 48) * 10 + (h2.toNat - 48)
    let mi := (m1.toNat - 48) * 10 + (m2.toNat - 48)
    let s := (s1.toNat - 48) * 10 + (s2.toNat - 48)
    if validHMS h mi s then some (h, mi, s) else none
  | _ => none

/-- Model of Go `time.ParseInLocation("2006-01-02T15:04:05", y-mo-d+"T00:00:00")`
on the captured diary-path groups: range-validates the date and yields local
midnight of that date (`none` models a parse error, which the code turns into
a panic). -/
def parseDiaryDate (y mo d : String) : Option DateTime :=
  if 1 ≤ strToNat mo && strToNat mo ≤ 12 && 1 ≤ strToNat d &&
      strToNat d ≤ daysInMonth (strToNat y) (strToNat mo) then
    some ⟨strToNat y, strToNat mo, strToNat d, 0, 0, 0⟩
  else
    none

inductive NoteType where
  | NoteText
  | Diary
deriving DecidableEq, Repr

/-- Model of the Go `Note` struct.  The `journal` back-pointer is dropped:
`Note.process` takes the journal explicitly.  `type` is the Go field `Type`
(a Lean keyword). -/
structure Note where
  Path : String
  type : NoteType
  Time : DateTime
deriving DecidableEq, Repr

/-- Model of the Go `Tag` struct.  The `note` back-pointer and the `Tag`
string field (never assigned by the scanner) are dropped. -/
structure Tag where
  Time : DateTime
  LineNo : Nat
  Text : String
deriving DecidableEq, Repr

/-- Model of the Go `Journal` struct (the unexported `path` root-directory
field is dropped: all paths in the model are relative to the root).  The four
maps are association lists; the list order models the enumeration order of
the corresponding Go map. -/
structure Journal where
  Hash : String
  Doings : List (String × List Tag)
  Todos : List (String × List Tag)
  Laters : List (String × List Tag)
  Diary : List (String × List (String × String))
deriving DecidableEq, Repr

def mapLookup {α : Type} (k : String) : List (String × α) → Option α
  | [] => none
  | (k2, v) :: rest => if k2 == k then some v else mapLookup k rest

def mapLookupD {α : Type} (k : String) (m : List (String × α)) (dflt : α) : α :=
  (mapLookup k m).getD dflt

def mapDelete {α : Type} (k : String) : List (String × α) → List (String × α)
  | [] => []
  | (k2, v) :: rest => if k2 == k then mapDelete k rest else (k2, v) :: mapDelete k rest

def mapSet {α : Type} (k : String) (v : α) : List (String × α) → List (String × α)
  | [] => [(k, v)]
  | (k2, v2) :: rest => if k2 == k then (k2, v) :: rest else (k2, v2) :: mapSet k v rest

deriving instance DecidableEq for Except

/-- Result of `os.Open` on a note file: the file's lines, a not-exist error,
or any other I/O error. -/
inductive OpenResult where
  | ok (lines : List String)
  | errNotExist
  | errOther
deriving DecidableEq, Repr

/-- Model of `Journal.NewNote` (lib.go).  `stat` is the result of
`os.Stat`: `none` models a stat error (the code panics), `some mt` carries
the file's modification time. -/
def Journal.NewNote (fn : String) (stat : Option DateTime) : Except String Note :=
  match stat with
  | none => .error ("Error read file " ++ fn)
  | some mt =>
    match dpatternMatch fn with
    | some (y1, mo1, y2, mo2, d) =>
      if y1 == y2 && mo1 == mo2 then
        match parseDiaryDate y2 mo2 d with
        | some t => .ok ⟨fn, .Diary, t⟩
        | none => .error ("error date format " ++ y2 ++ "-" ++ mo2 ++ "-" ++ d)
      else
        .ok ⟨fn, .NoteText, mt⟩
    | none => .ok ⟨fn, .NoteText, mt⟩

/-- Mutable locals of the scanning loop in `Note.process`:
the current time-of-day string `nt`, the current timestamp context `ctime`,
the 1-based line counter, and the three tag accumulators. -/
structure ScanState where
  nt : String
  ctime : DateTime
  lineNo : Nat
  doings : List Tag
  todos : List Tag
  laters : List Tag
deriving DecidableEq, Repr

/-- Marker-token rewriting of one whitespace-delimited token
(the `switch w` in `Note.process`). -/
def rewriteWord (path nt w : String) : String :=
  if w == "*DOING*" then "*[DOING](" ++ path ++ "#" ++ nt ++ ")*"
  else if w == "*TODO*" then "*[TODO](" ++ path ++ "#" ++ nt ++ ")*"
  else if w == "*LATER*" then "*[LATER](" ++ path ++ "#" ++ nt ++ ")*"
  else w

/-- One iteration of the `for scanner.Scan()` loop in `Note.process`.
`noteTime` supplies the note's calendar date (`nd`); a heading line updates
`nt`/`ctime`, then the line's tokens are matched and rewritten. -/
def scanLine (path : String) (noteTime : DateTime) (st : ScanState) (text : String) :
    Except String ScanState :=
  match
    (match mdTimeMatch text with
     | some t =>
       match parseHMS t with
       | some (h, mi, s) =>
         Except.ok (t, (⟨noteTime.year, noteTime.month, noteTime.day, h, mi, s⟩ : DateTime))
       | none => Except.error ("error parse date " ++ t)
     | none => Except.ok (st.nt, st.ctime)) with
  | .error e => .error e
  | .ok (nt, ctime) =>
    let ws := goFields text
    let doing := ws.contains "*DOING*"
    let todo := ws.contains "*TODO*"
    let later := ws.contains "*LATER*"
    let ftext := joinSep " " (ws.map (rewriteWord path nt))
    let st1 : ScanState := { st with nt := nt, ctime := ctime }
    let st2 := if doing then { st1 with doings := st1.doings ++ [⟨ctime, st1.lineNo, ftext⟩] } else st1
    let st3 := if todo then { st2 with todos := st2.todos ++ [⟨ctime, st2.lineNo, ftext⟩] } else st2
    let st4 := if later then { st3 with laters := st3.laters ++ [⟨ctime, st3.lineNo, ftext⟩] } else st3
    .ok { st4 with lineNo := st4.lineNo + 1 }

def initScan (n : Note) : ScanState :=
  ⟨fmtHMS n.Time, n.Time, 1, [], [], []⟩

/-- The scanning loop of `Note.process` over a note's lines. -/
def scanNote (n : Note) (lines : List String) : Except String ScanState :=
  lines.foldlM (scanLine n.Path n.Time) (initScan n)

/-- The self-reference guard at the top of `Note.process`:
paths named `index.md` (or ending in `/index.md`) are never scanned. -/
def indexGuard (path : String) : Bool :=
  strEndsWith path "/index.md" || path == "index.md"

/-- The commit step of `Note.process` (lib.go:419-433): a non-empty result
list replaces the note's slot in the corresponding category map, an empty
result deletes the slot. -/
def commitTags (j : Journal) (path : String) (st : ScanState) : Journal :=
  { j with
    Doings := if st.doings.isEmpty then mapDelete path j.Doings else mapSet path st.doings j.Doings
    Todos := if st.todos.isEmpty then mapDelete path j.Todos else mapSet path st.todos j.Todos
    Laters := if st.laters.isEmpty then mapDelete path j.Laters else mapSet path st.laters j.Laters }

/-- The diary-index step of `Note.process` (lib.go:434-448): on a
consistent diary path, compute `delta = (y*12+m-1) - (Y*12+M-3)` against the
current wall clock and append `(day, path)` under the `YYYY-MM` key when
`delta > 0`. -/
def recordDiary (j : Journal) (path : String) (now : DateTime) : Except String Journal :=
  match dpatternMatch path with
  | some (y1, mo1, y2, mo2, d) =>
    if y1 == y2 && mo1 == mo2 then
      match parseDiaryDate y2 mo2 d with
      | none => .error ("error date format " ++ y2 ++ "-" ++ mo2 ++ "-" ++ d)
      | some dtime =>
        -- Go locals inlined: yearMonth = dtime.Year()*12 + dtime.Month() - 1,
        -- lastYearMonth = now.Year()*12 + now.Month() - 3, guard delta > 0
        if 0 < ((dtime.year : Int) * 12 + (dtime.month : Int) - 1) -
            ((now.year : Int) * 12 + (now.month : Int) - 3) then
          .ok { j with
                Diary := mapSet (y2 ++ "-" ++ mo2)
                  (mapLookupD (y2 ++ "-" ++ mo2) j.Diary [] ++ [(d, path)]) j.Diary }
        else
          .ok j
    else
      .ok j
  | none => .ok j

/-- The purge branch of `Note.process` (lib.go:363-366): the note's slot is
deleted from all three category maps. -/
def purgeNote (j : Journal) (path : String) : Journal :=
  { j with
    Doings := mapDelete path j.Doings
    Todos := mapDelete path j.Todos
    Laters := mapDelete path j.Laters }

/-- Model of `Note.process` (lib.go:356-449).  `o` is the result of
`os.Open` on the note's file; `now` is `time.Now()`.  NOTE the error
branches mirror the source exactly: the code purges and returns when the
open error is NOT `os.ErrNotExist`, and panics (here `.error`) when the
file does not exist. -/
def Note.process (n : Note) (j : Journal) (o : OpenResult) (now : DateTime) :
    Except String Journal :=
  if indexGuard n.Path then .ok j
  else
    match o with
    | .errOther => .ok (purgeNote j n.Path)
    | .errNotExist => .error ("error processing " ++ n.Path)
    | .ok lines =>
      match scanNote n lines with
      | .error e => .error e
      | .ok st => recordDiary (commitTags j n.Path st) n.Path now

/-- Answers of the external collaborators consumed by one processing pass:
`untracked` models the line-split output of `git ls-files . --exclude-standard
--others`; `diffNames` the line-split output of `git diff <hash> --name-only`;
`stat` the result of `os.Stat` per relative path; `openF` the result of
`os.Open` per relative path; `now` the wall clock; `tree` the depth-first
enumeration of all regular files under the root (relative paths) that
`filepath.WalkDir` visits. -/
structure Env where
  untracked : List String
  diffNames : List String
  stat : String → Option DateTime
  openF : String → OpenResult
  now : DateTime
  tree : List String

def splitOnSlash : List Char → List (List Char)
  | [] => [[]]
  | c :: rest =>
    if c == '/' then
      [] :: splitOnSlash rest
    else
      match splitOnSlash rest with
      | g :: gs => (c :: g) :: gs
      | [] => [[c]]

/-- `d.Name()` of a relative file path: its last `/`-separated component. -/
def baseName (p : String) : String :=
  ⟨(splitOnSlash p.toList).getLastD []⟩

/-- `.git` component test: `filepath.WalkDir` prunes any directory named
`.git` (`filepath.SkipDir`), so the files it yields are exactly those with no
`.git` path component. -/
def underGit (p : String) : Bool :=
  (splitOnSlash p.toList).contains ".git".toList

/-- Classify the file at `p` and process it (the body of the walk callback
for a selected file, lib.go:348-350). -/
def processNoteAt (env : Env) (jj : Journal) (p : String) : Except String Journal :=
  match Journal.NewNote p (env.stat p) with
  | .error e => .error e
  | .ok n => n.process jj (env.openF p) env.now

/-- The walk callback of `Journal.processAll` (lib.go:341-353) on one
enumerated file: prune `.git`, ignore entries named `index.md`, process
everything else with the `.md` suffix. -/
def processAllStep (env : Env) (jj : Journal) (p : String) : Except String Journal :=
  if underGit p then .ok jj
  else if baseName p == "index.md" then .ok jj
  else if strEndsWith p ".md" then processNoteAt env jj p
  else .ok jj

/-- Model of `Journal.processAll` (lib.go:335-354): reset the three category
maps and the diary index, then walk the tree; every visited file that is not
named `index.md` and has the `.md` suffix is classified and processed. -/
def Journal.processAll (j : Journal) (env : Env) : Except String Journal :=
  env.tree.foldlM (processAllStep env)
    { j with Doings := [], Todos := [], Laters := [], Diary := [] }

/-- The two change-collection loops of `Journal.processChanges`
(lib.go:305-329), building the `changes` map as an insertion-ordered list of
notes (Go map iteration order is unspecified; insertion order is one
admissible enumeration).  Untracked `.md` files are classified directly
(`NewNote` panics if `stat` fails); diff-listed `.md` files are classified
only when `os.Stat` succeeds on them. -/
def untrackedStep (env : Env) (acc : List Note) (fn : String) : Except String (List Note) :=
  if strEndsWith fn ".md" then
    if acc.any (fun n => n.Path == fn) then .ok acc
    else
      match Journal.NewNote fn (env.stat fn) with
      | .error e => .error e
      | .ok n => .ok (acc ++ [n])
  else .ok acc

def diffStep (env : Env) (acc : List Note) (fn : String) : Except String (List Note) :=
  if strEndsWith fn ".md" then
    match env.stat fn with
    | some _ =>
      if acc.any (fun n => n.Path == fn) then .ok acc
      else
        match Journal.NewNote fn (env.stat fn) with
        | .error e => .error e
        | .ok n => .ok (acc ++ [n])
    | none => .ok acc
  else .ok acc

def collectChanges (env : Env) : Except String (List Note) :=
  match env.untracked.foldlM (untrackedStep env) [] with
  | .error e => .error e
  | .ok acc => env.diffNames.foldlM (diffStep env) acc

/-- The per-note step of the `for _, v := range changes` loop
(lib.go:330-332). -/
def processChangesStep (env : Env) (jj : Journal) (n : Note) : Except String Journal :=
  n.process jj (env.openF n.Path) env.now

/-- Model of `Journal.processChanges` (lib.go:293-333): an empty marker hash
triggers a full rescan; otherwise the collected changed notes are processed
one by one. -/
def Journal.processChanges (j : Journal) (env : Env) : Except String Journal :=
  if j.Hash == "" then j.processAll env
  else
    match collectChanges env with
    | .error e => .error e
    | .ok changes => changes.foldlM (processChangesStep env) j

/-- The comparison under `sort.Slice` in `Journal.writeTags`: tag `a` may
come before tag `b` when `b`'s time does not lie strictly after `a`'s
(descending by effective timestamp). -/
def tagGE (a b : Tag) : Prop :=
  b.Time.key ≤ a.Time.key

instance : DecidableRel tagGE :=
  fun a b => Nat.decLe b.Time.key a.Time.key

instance : IsTotal Tag tagGE :=
  ⟨fun a b => Nat.le_total b.Time.key a.Time.key⟩

instance : IsTrans Tag tagGE :=
  ⟨fun _ _ _ h1 h2 => Nat.le_trans h2 h1⟩

/-- The flattening loop of `Journal.writeTags`: all tag lists of the map, in
enumeration order. -/
def collectTags (m : List (String × List Tag)) : List Tag :=
  (m.map Prod.snd).flatten

/-- Model of the `sort.Slice(tags, ...Time.After...)` call: some permutation
of the input that is weakly descending by timestamp.  Insertion sort is used
as the model; for the slice sizes of the concrete statements below it
coincides with Go's algorithm (which falls back to insertion sort on short
slices). -/
def sortTags (l : List Tag) : List Tag :=
  List.insertionSort tagGE l

/-- Model of `Journal.writeTags` output on one category map. -/
def writeTagsStr (m : List (String × List Tag)) : String :=
  String.join ((sortTags (collectTags m)).map (fun t => t.Text ++ "\n"))

/-- Model of the document produced by `Journal.Write` into `index.md`. -/
def Journal.indexDoc (j : Journal) : String :=
  "# DOING\n\n" ++ writeTagsStr j.Doings ++
  "\n# TODO\n\n" ++ writeTagsStr j.Todos ++
  "\n# LATER\n\n" ++ writeTagsStr j.Laters

/-! Concrete instances used by the claim statements and witnesses. -/

/-- The diary note of the end-to-end scenario. -/
def c7path : String := "2024/03/2024-03-05.md"

def c7lines : List String := ["# Note 2024-03-05", "## 09:00:00", "buy milk *TODO*"]

def c7note : Note := ⟨c7path, .Diary, ⟨2024, 3, 5, 0, 0, 0⟩⟩

def c7tag : Tag :=
  ⟨⟨2024, 3, 5, 9, 0, 0⟩, 3, "buy milk *[TODO](2024/03/2024-03-05.md#09:00:00)*"⟩

def c7scan : ScanState :=
  ⟨"09:00:00", ⟨2024, 3, 5, 9, 0, 0⟩, 4, [], [c7tag], []⟩

/-- A previously-tagged plain note used by the error-handling statements. -/
def c1tag : Tag := ⟨⟨2024, 1, 1, 9, 0, 0⟩, 1, "x *[TODO](a.md#09:00:00)*"⟩

def c1j : Journal :=
  ⟨"h", [("a.md", [c1tag])], [("a.md", [c1tag])], [("a.md", [c1tag])], []⟩

def c1note : Note := ⟨"a.md", .NoteText, ⟨2024, 1, 1, 9, 0, 0⟩⟩

def c1now : DateTime := ⟨2024, 6, 1, 0, 0, 0⟩

/-- A diary note more than 3 months older than `c2now`. -/
def c2path : String := "2024/01/2024-01-10.md"

def c2note : Note := ⟨c2path, .Diary, ⟨2024, 1, 10, 0, 0, 0⟩⟩

def c2now : DateTime := ⟨2024, 6, 15, 12, 0, 0⟩

def c2j : Journal := ⟨"h", [], [], [], []⟩

/-- A recent diary note changed during an incremental pass. -/
def c3path : String := "2026/10/2026-10-01.md"

def c3env : Env :=
  ⟨[c3path], [], fun _ => some ⟨2026, 10, 1, 8, 0, 0⟩, fun _ => .ok ["hello"],
    ⟨2026, 10, 5, 0, 0, 0⟩, []⟩

def c3j : Journal := ⟨"h", [], [], [], []⟩

def c3resJ : Journal := ⟨"h", [], [], [], [("2026-10", [("01", c3path)])]⟩

/-- A previously-tagged note that was deleted from disk and is reported by
`git diff` during an incremental pass (`stat` fails everywhere). -/
def c4tag : Tag := ⟨⟨2024, 1, 1, 9, 0, 0⟩, 1, "y *[DOING](a.md#09:00:00)*"⟩

def c4j : Journal :=
  ⟨"h", [("a.md", [c4tag])], [("a.md", [c4tag])], [("a.md", [c4tag])], []⟩

def c4env : Env :=
  ⟨[], ["a.md"], fun _ => none, fun _ => .errNotExist, ⟨2024, 6, 1, 0, 0, 0⟩, []⟩

/-- Two tags of distinct notes carrying the same effective timestamp. -/
def c5t1 : Tag := ⟨⟨2024, 1, 1, 9, 0, 0⟩, 1, "alpha *[DOING](a.md#09:00:00)*"⟩

def c5t2 : Tag := ⟨⟨2024, 1, 1, 9, 0, 0⟩, 1, "beta *[DOING](b.md#09:00:00)*"⟩

def c5m1 : List (String × List Tag) := [("a.md", [c5t1]), ("b.md", [c5t2])]

def c5m2 : List (String × List Tag) := [("b.md", [c5t2]), ("a.md", [c5t1])]

def c5j1 : Journal := ⟨"", c5m1, [], [], []⟩

def c5j2 : Journal := ⟨"", c5m2, [], [], []⟩

/-- The selection predicate of a full rescan: `.md` files not named
`index.md` and not under the pruned `.git` directory. -/
def selectAll (p : String) : Bool :=
  strEndsWith p ".md" && !(baseName p == "index.md") && !(underGit p)

def c6j : Journal :=
  ⟨"", [("stale.md", [c1tag])], [], [], [("2019-01", [("01", "2019/01/2019-01-01.md")])]⟩

def c6env : Env :=
  ⟨[], [], fun _ => some ⟨2026, 9, 1, 8, 0, 0⟩,
    fun p => if p == "a.md" then .ok ["hi *DOING*"] else .ok ["plain"],
    ⟨2026, 10, 5, 0, 0, 0⟩,
    ["a.md", "index.md", "sub/index.md", ".git/c.md", "b.txt", "2026/09/2026-09-15.md"]⟩

/-- Journal and scan data instantiating the commit postcondition. -/
def c8j : Journal := ⟨"h", [("other.md", [c1tag])], [], [], []⟩

def c8now : DateTime := ⟨2024, 3, 5, 10, 0, 0⟩

/-- No-empty-lists invariant of one category map. -/
def noEmptyMap (m : List (String × List Tag)) : Prop :=
  ∀ k v, mapLookup k m = some v → v ≠ []

/-- Environment for repeated incremental passes over one qualifying diary
note: the note is always listed as untracked, always present on disk, and
its month (2026-09) lies inside the recording window of `now` (2026-10). -/
def c10path : String := "2026/09/2026-09-15.md"

def c10env : Env :=
  ⟨[c10path], [], fun _ => some ⟨2026, 9, 15, 8, 0, 0⟩, fun _ => .ok ["hello"],
    ⟨2026, 10, 1, 0, 0, 0⟩, []⟩

/-- The journal after `N` incremental passes of `c10env`, starting from a
journal whose diary index carries an (initially empty) slot for `2026-09`. -/
def c10state (N : Nat) : Journal :=
  ⟨"h", [], [], [], [("2026-09", List.replicate N ("15", c10path))]⟩

/-- `N` successive incremental passes (`processChanges`) of `c10env`. -/
def c10iter : Nat → Except String Journal
  | 0 => .ok (c10state 0)
  | N + 1 =>
    match c10iter N with
    | .ok j => j.processChanges c10env
    | .error e => .error e

/-- Length of the diary-index entry list under key `k` of a pass result. -/
def diaryEntries (r : Except String Journal) (k : String) : List (String × String) :=
  match r with
  | .ok j => mapLookupD k j.Diary []
  | .error _ => []

/-- Result of committing the `c7` scan into `c8j` (computed by the model). -/
def c8res : Journal :=
  ⟨"h", [("other.md", [c1tag])], [(c7path, [c7tag])], [], [("2024-03", [("05", c7path)])]⟩

/-- Journal reset as at the top of `processAll`. -/
def resetJournal (j : Journal) : Journal :=
  { j with Doings := [], Todos := [], Laters := [], Diary := [] }

/-! ### Association-list lemmas -/

theorem mapLookup_mapSet_self {α : Type} (k : String) (v : α) (m : List (String × α)) :
    mapLookup k (mapSet k v m) = some v := by
  induction m with
  | nil => simp [mapSet, mapLookup]
  | cons hd tl ih =>
    obtain ⟨k2, v2⟩ := hd
    by_cases h : k2 = k
    · subst h; simp [mapSet, mapLookup]
    · simp [mapSet, mapLookup, h, ih]

theorem mapLookup_mapSet_ne {α : Type} {k k2 : String} (h : k2 ≠ k) (v : α)
    (m : List (String × α)) :
    mapLookup k (mapSet k2 v m) = mapLookup k m := by
  induction m with
  | nil => simp [mapSet, mapLookup, h]
  | cons hd tl ih =>
    obtain ⟨k3, v3⟩ := hd
    by_cases h2 : k3 = k2
    · subst h2; simp [mapSet, mapLookup, h]
    · by_cases h3 : k3 = k
      · subst h3; simp [mapSet, mapLookup, h2]
      · simp [mapSet, mapLookup, h2, h3, ih]

theorem mapLookup_mapDelete_self {α : Type} (k : String) (m : List (String × α)) :
    mapLookup k (mapDelete k m) = none := by
  induction m with
  | nil => simp [mapDelete, mapLookup]
  | cons hd tl ih =>
    obtain ⟨k2, v2⟩ := hd
    by_cases h : k2 = k
    · subst h; simp [mapDelete, mapLookup, ih]
    · simp [mapDelete, mapLookup, h, ih]

theorem mapLookup_mapDelete_ne {α : Type} {k k2 : String} (h : k2 ≠ k)
    (m : List (String × α)) :
    mapLookup k (mapDelete k2 m) = mapLookup k m := by
  induction m with
  | nil => simp [mapDelete, mapLookup]
  | cons hd tl ih =>
    obtain ⟨k3, v3⟩ := hd
    by_cases h2 : k3 = k2
    · subst h2; simp [mapDelete, mapLookup, h, ih]
    · simp [mapDelete, mapLookup, h2, ih]

/-! ### Structural lemmas about `Note.process` -/

theorem mapLookupD_mapSet_append {α : Type} (k dtg : String) (m : List (String × List α))
    (x : List α) :
    ∃ t, mapLookupD k (mapSet dtg (mapLookupD dtg m [] ++ x) m) [] = mapLookupD k m [] ++ t := by
  by_cases hk : dtg = k
  · subst hk
    exact ⟨x, by simp [mapLookupD, mapLookup_mapSet_self]⟩
  · exact ⟨[], by simp [mapLookupD, mapLookup_mapSet_ne hk]⟩

/-- `recordDiary` never touches the hash or the three category maps. -/
theorem recordDiary_maps (j : Journal) (p : String) (now : DateTime) (j' : Journal)
    (h : recordDiary j p now = .ok j') :
    j'.Hash = j.Hash ∧ j'.Doings = j.Doings ∧ j'.Todos = j.Todos ∧ j'.Laters = j.Laters := by
  unfold recordDiary at h
  split at h
  · split at h
    · split at h
      · exact Except.noConfusion h
      · split at h
        · cases h; exact ⟨rfl, rfl, rfl, rfl⟩
        · cases h; exact ⟨rfl, rfl, rfl, rfl⟩
    · cases h; exact ⟨rfl, rfl, rfl, rfl⟩
  · cases h; exact ⟨rfl, rfl, rfl, rfl⟩

/-- `recordDiary` only ever appends to the entry list of a diary-index key. -/
theorem recordDiary_grows (j : Journal) (p : String) (now : DateTime) (j' : Journal)
    (h : recordDiary j p now = .ok j') (k : String) :
    ∃ t, mapLookupD k j'.Diary [] = mapLookupD k j.Diary [] ++ t := by
  unfold recordDiary at h
  split at h
  · split at h
    · split at h
      · exact Except.noConfusion h
      · split at h
        · cases h; exact mapLookupD_mapSet_append _ _ _ _
        · cases h; exact ⟨[], by simp⟩
    · cases h; exact ⟨[], by simp⟩
  · cases h; exact ⟨[], by simp⟩

/-- One `Note.process` call only ever appends to a diary-index entry list. -/
theorem process_diary_grows (n : Note) (j : Journal) (o : OpenResult) (now : DateTime)
    (j' : Journal) (h : n.process j o now = .ok j') (k : String) :
    ∃ t, mapLookupD k j'.Diary [] = mapLookupD k j.Diary [] ++ t := by
  unfold Note.process at h
  split at h
  · cases h; exact ⟨[], by simp⟩
  · split at h
    · cases h; exact ⟨[], by simp [purgeNote]⟩
    · exact Except.noConfusion h
    · split at h
      · exact Except.noConfusion h
      · exact recordDiary_grows _ _ _ _ h k

/-- A fold of `Note.process` calls only ever appends to a diary-index entry
list. -/
theorem foldProcess_diary_grows (env : Env) :
    ∀ (notes : List Note) (j j' : Journal),
      notes.foldlM (processChangesStep env) j = .ok j' →
      ∀ k, ∃ t, mapLookupD k j'.Diary [] = mapLookupD k j.Diary [] ++ t := by
  intro notes
  induction notes with
  | nil =>
    intro j j' h k
    have h' : Except.ok j = Except.ok j' := h
    cases h'
    exact ⟨[], by simp⟩
  | cons nn rest ih =>
    intro j j' h k
    rw [List.foldlM_cons] at h
    cases hp : processChangesStep env j nn with
    | error e =>
      rw [hp] at h
      exact Except.noConfusion h
    | ok j1 =>
      rw [hp] at h
      have h1 : rest.foldlM (processChangesStep env) j1 = .ok j' := h
      obtain ⟨t1, ht1⟩ := process_diary_grows nn j (env.openF nn.Path) env.now j1 hp k
      obtain ⟨t2, ht2⟩ := ih j1 j' h1 k
      exact ⟨t1 ++ t2, by rw [ht2, ht1, List.append_assoc]⟩

/-- Successful processing of an openable note decomposes into a successful
scan followed by the diary-record step over the committed journal. -/
theorem process_ok_elim (n : Note) (j : Journal) (lines : List String) (now : DateTime)
    (j' : Journal) (hg : indexGuard n.Path = false)
    (h : n.process j (.ok lines) now = .ok j') :
    ∃ st, scanNote n lines = .ok st ∧
      recordDiary (commitTags j n.Path st) n.Path now = .ok j' := by
  unfold Note.process at h
  rw [if_neg (by simp [hg])] at h
  have h2 : (match scanNote n lines with
      | Except.error e => Except.error e
      | Except.ok st => recordDiary (commitTags j n.Path st) n.Path now) = Except.ok j' := h
  cases hs : scanNote n lines with
  | error e => rw [hs] at h2; exact Except.noConfusion h2
  | ok st => rw [hs] at h2; exact ⟨st, rfl, h2⟩

theorem noEmptyMap_mapDelete (k : String) (m : List (String × List Tag))
    (h : noEmptyMap m) : noEmptyMap (mapDelete k m) := by
  intro k2 v hv
  by_cases hk : k = k2
  · subst hk; rw [mapLookup_mapDelete_self] at hv; exact Option.noConfusion hv
  · rw [mapLookup_mapDelete_ne hk] at hv; exact h k2 v hv

theorem noEmptyMap_mapSet (k : String) (v : List Tag) (m : List (String × List Tag))
    (hv : v ≠ []) (h : noEmptyMap m) : noEmptyMap (mapSet k v m) := by
  intro k2 w hw
  by_cases hk : k = k2
  · subst hk; rw [mapLookup_mapSet_self] at hw; cases hw; exact hv
  · rw [mapLookup_mapSet_ne hk] at hw; exact h k2 w hw

/-- Processing one note changes the three category maps only at that note's
own path. -/
theorem process_other_key (n : Note) (j : Journal) (o : OpenResult) (now : DateTime)
    (j' : Journal) (fn : String) (hne : n.Path ≠ fn)
    (h : n.process j o now = .ok j') :
    mapLookup fn j'.Doings = mapLookup fn j.Doings ∧
    mapLookup fn j'.Todos = mapLookup fn j.Todos ∧
    mapLookup fn j'.Laters = mapLookup fn j.Laters := by
  unfold Note.process at h
  split at h
  · cases h; exact ⟨rfl, rfl, rfl⟩
  · split at h
    · cases h
      exact ⟨mapLookup_mapDelete_ne hne _, mapLookup_mapDelete_ne hne _,
        mapLookup_mapDelete_ne hne _⟩
    · exact Except.noConfusion h
    · split at h
      · exact Except.noConfusion h
      · obtain ⟨-, hD, hT, hL⟩ := recordDiary_maps _ _ _ _ h
        rw [hD, hT, hL]
        refine ⟨?_, ?_, ?_⟩ <;>
          · simp only [commitTags]
            split
            · exact mapLookup_mapDelete_ne hne _
            · exact mapLookup_mapSet_ne hne _ _

/-! ### Claim theorems -/

/-- C1: the error handling of `Note.process` is inverted relative to the
spec.  At the failing input — a previously-tagged note whose file no longer
exists — the code aborts fatally (models the `panic`), while a non-not-exist
I/O error silently purges the note's entries from all three category maps
and continues.  The claim (purge on missing file, fatal otherwise) describes
the clear intent — `OpenJournal` uses the same `errors.Is` idiom the right
way around — so this is a slip in the code, not in the spec. -/
theorem C1_code_behavior :
    c1note.process c1j .errNotExist c1now = .error "error processing a.md" ∧
    c1note.process c1j .errOther c1now = .ok ⟨"h", [], [], [], []⟩ ∧
    mapLookup "a.md" c1j.Doings = some [c1tag] ∧
    mapLookup "a.md" c1j.Todos = some [c1tag] ∧
    mapLookup "a.md" c1j.Laters = some [c1tag] := by
  decide

/-- C7: scanning `2024/03/2024-03-05.md` with the three scenario lines
classifies the note as a diary entry with baseline 2024-03-05T00:00:00,
and produces exactly one Todo tag — line 3, timestamp 2024-03-05T09:00:00,
text `buy milk *[TODO](2024/03/2024-03-05.md#09:00:00)*` — and no Doing or
Later tags. -/
theorem C7_end_to_end :
    Journal.NewNote c7path (some ⟨2024, 3, 6, 1, 2, 3⟩) = .ok c7note ∧
    c7note.type = .Diary ∧
    c7note.Time = ⟨2024, 3, 5, 0, 0, 0⟩ ∧
    scanNote c7note c7lines = .ok c7scan ∧
    c7scan.doings = [] ∧
    c7scan.todos = [c7tag] ∧
    c7scan.laters = [] ∧
    c7tag.LineNo = 3 ∧
    c7tag.Time = ⟨2024, 3, 5, 9, 0, 0⟩ ∧
    c7tag.Text = "buy milk *[TODO](2024/03/2024-03-05.md#09:00:00)*" := by
  decide

/-- C9: `Journal.NewNote` aborts fatally whenever `os.Stat` fails, for every
path — including diary-shaped paths, whose baseline time is derived from the
path alone; when stat succeeds on a diary path, the modification time is
ignored entirely. -/
theorem C9_stat_required :
    (∀ fn, Journal.NewNote fn none = .error ("Error read file " ++ fn)) ∧
    (∀ mt, Journal.NewNote c7path (some mt) = .ok c7note) := by
  exact ⟨fun fn => rfl, fun mt => rfl⟩

/-- C2 counterexample: `2024/01/2024-01-10.md` is a diary note whose month
(2024-01) is 5 months — more than the claimed 3-month window — older than
`c2now` (2024-06), yet a successful full-scan processing step records
nothing under `"2024-01"`: the journal is returned unchanged, with an empty
diary index. -/
theorem C2_counterexample :
    Journal.NewNote c2path (some c2now) = .ok c2note ∧
    (c2now.year * 12 + c2now.month) - (2024 * 12 + 1) > 3 ∧
    c2note.process c2j (.ok ["hello"]) c2now = .ok c2j ∧
    c2j.Diary = [] := by
  decide

/-- C2 (amended): for a successfully processed note with a consistent diary
path `y/mo/y-mo-d.md`, the `(d, path)` pair is appended under the key
`y ++ "-" ++ mo` iff `(y*12 + mo - 1) - (now.year*12 + now.month - 3) > 0`,
which (second conjunct) holds iff the note's calendar month is at most ONE
month older than the current month (current and future months included) —
not when it is more than 3 months older. -/
theorem C2_amended (j j' : Journal) (n : Note) (lines : List String) (now : DateTime)
    (y mo d : String)
    (hg : indexGuard n.Path = false)
    (hm : dpatternMatch n.Path = some (y, mo, y, mo, d))
    (hrun : n.process j (.ok lines) now = .ok j') :
    (j'.Diary =
      if 0 < ((strToNat y : Int) * 12 + (strToNat mo : Int) - 1) -
          ((now.year : Int) * 12 + (now.month : Int) - 3) then
        mapSet (y ++ "-" ++ mo)
          (mapLookupD (y ++ "-" ++ mo) j.Diary [] ++ [(d, n.Path)]) j.Diary
      else j.Diary) ∧
    (0 < ((strToNat y : Int) * 12 + (strToNat mo : Int) - 1) -
        ((now.year : Int) * 12 + (now.month : Int) - 3) ↔
      ((now.year : Int) * 12 + (now.month : Int)) -
        ((strToNat y : Int) * 12 + (strToNat mo : Int)) ≤ 1) := by
  obtain ⟨st, hs, hr⟩ := process_ok_elim n j lines now j' hg hrun
  refine ⟨?_, by omega⟩
  unfold recordDiary at hr
  rw [hm] at hr
  dsimp only at hr
  rw [if_pos (by simp)] at hr
  cases hd : parseDiaryDate y mo d with
  | none => rw [hd] at hr; exact Except.noConfusion hr
  | some dtime =>
    rw [hd] at hr
    dsimp only at hr
    have hy : dtime.year = strToNat y ∧ dtime.month = strToNat mo := by
      unfold parseDiaryDate at hd
      split at hd
      · cases hd; exact ⟨rfl, rfl⟩
      · exact Option.noConfusion hd
    rw [hy.1, hy.2] at hr
    split at hr
    · cases hr
      rw [if_pos ‹_›]
      rfl
    · cases hr
      rw [if_neg ‹_›]
      rfl

/-- C2 witness: the amended window characterisation instantiated at the
concrete aged diary note (else-branch: nothing is recorded). -/
theorem C2_amended_witness :
    (c2j.Diary =
      if 0 < ((strToNat "2024" : Int) * 12 + (strToNat "01" : Int) - 1) -
          ((c2now.year : Int) * 12 + (c2now.month : Int) - 3) then
        mapSet ("2024" ++ "-" ++ "01")
          (mapLookupD ("2024" ++ "-" ++ "01") c2j.Diary [] ++ [("10", c2note.Path)]) c2j.Diary
      else c2j.Diary) ∧
    (0 < ((strToNat "2024" : Int) * 12 + (strToNat "01" : Int) - 1) -
        ((c2now.year : Int) * 12 + (c2now.month : Int) - 3) ↔
      ((c2now.year : Int) * 12 + (c2now.month : Int)) -
        ((strToNat "2024" : Int) * 12 + (strToNat "01" : Int)) ≤ 1) :=
  C2_amended c2j c2j c2note ["hello"] c2now "2024" "01" "10" (by decide) (by decide) (by decide)

/-- C3 counterexample: an incremental rescan (non-empty marker `"h"`) of the
changed diary note `2026/10/2026-10-01.md` DOES update the month index: the
pass appends `("01", path)` under `"2026-10"`, so the mapping differs after
the pass. -/
theorem C3_counterexample :
    c3j.Hash ≠ "" ∧
    c3j.processChanges c3env = .ok c3resJ ∧
    c3resJ.Diary ≠ c3j.Diary := by
  refine ⟨by decide, by decide, by decide⟩

/-- C3 (amended): incremental rescans never RESET the diary month index —
every existing entry list survives as a prefix of the resulting entry list
(they may, however, append qualifying diary entries, as the counterexample
shows). -/
theorem C3_amended (j : Journal) (env : Env) (j' : Journal)
    (h0 : j.Hash ≠ "") (h : j.processChanges env = .ok j') (k : String) :
    ∃ t, mapLookupD k j'.Diary [] = mapLookupD k j.Diary [] ++ t := by
  unfold Journal.processChanges at h
  rw [if_neg (by simpa using h0)] at h
  cases hc : collectChanges env with
  | error e => rw [hc] at h; exact Except.noConfusion h
  | ok changes =>
    rw [hc] at h
    exact foldProcess_diary_grows env changes j j' h k

/-- C3 witness: the prefix-growth guarantee instantiated at the concrete
incremental pass of the counterexample data. -/
theorem C3_amended_witness :
    ∃ t, mapLookupD "2026-10" c3resJ.Diary [] = mapLookupD "2026-10" c3j.Diary [] ++ t :=
  C3_amended c3j c3env c3resJ (by decide) (by decide) "2026-10"

/-- A successful `NewNote` implies the stat succeeded and the note keeps the
requested path. -/
theorem NewNote_ok_stat (fn : String) (stat : Option DateTime) (n : Note)
    (h : Journal.NewNote fn stat = .ok n) : stat.isSome = true ∧ n.Path = fn := by
  unfold Journal.NewNote at h
  split at h
  · exact Except.noConfusion h
  · refine ⟨rfl, ?_⟩
    split at h
    · split at h
      · split at h
        · cases h; rfl
        · exact Except.noConfusion h
      · cases h; rfl
    · cases h; rfl

theorem untrackedStep_stat (env : Env) (acc acc' : List Note) (fn : String)
    (h : untrackedStep env acc fn = .ok acc')
    (hacc : ∀ n ∈ acc, (env.stat n.Path).isSome = true) :
    ∀ n ∈ acc', (env.stat n.Path).isSome = true := by
  unfold untrackedStep at h
  split at h
  · split at h
    · cases h; exact hacc
    · cases hnew : Journal.NewNote fn (env.stat fn) with
      | error e => rw [hnew] at h; exact Except.noConfusion h
      | ok n0 =>
        rw [hnew] at h
        have h' : Except.ok (acc ++ [n0]) = Except.ok acc' := h
        cases h'
        intro n hn
        rcases List.mem_append.1 hn with h1 | h1
        · exact hacc n h1
        · have hn0 : n = n0 := List.mem_singleton.1 h1
          subst hn0
          obtain ⟨hsome, hpath⟩ := NewNote_ok_stat _ _ _ hnew
          rw [hpath]; exact hsome
  · cases h; exact hacc

theorem diffStep_stat (env : Env) (acc acc' : List Note) (fn : String)
    (h : diffStep env acc fn = .ok acc')
    (hacc : ∀ n ∈ acc, (env.stat n.Path).isSome = true) :
    ∀ n ∈ acc', (env.stat n.Path).isSome = true := by
  unfold diffStep at h
  split at h
  · split at h
    · split at h
      · cases h; exact hacc
      · cases hnew : Journal.NewNote fn (env.stat fn) with
        | error e => rw [hnew] at h; exact Except.noConfusion h
        | ok n0 =>
          rw [hnew] at h
          have h' : Except.ok (acc ++ [n0]) = Except.ok acc' := h
          cases h'
          intro n hn
          rcases List.mem_append.1 hn with h1 | h1
          · exact hacc n h1
          · have hn0 : n = n0 := List.mem_singleton.1 h1
            subst hn0
            obtain ⟨hsome, hpath⟩ := NewNote_ok_stat _ _ _ hnew
            rw [hpath]; exact hsome
    · cases h; exact hacc
  · cases h; exact hacc

/-- Invariants on the accumulator survive a `foldlM` over `Except`. -/
theorem foldlM_note_inv {β : Type} (f : List Note → β → Except String (List Note))
    (P : Note → Prop)
    (hf : ∀ acc b acc', f acc b = .ok acc' → (∀ n ∈ acc, P n) → ∀ n ∈ acc', P n) :
    ∀ (l : List β) (acc acc' : List Note),
      l.foldlM f acc = .ok acc' → (∀ n ∈ acc, P n) → ∀ n ∈ acc', P n := by
  intro l
  induction l with
  | nil =>
    intro acc acc' h hacc
    have h' : Except.ok acc = Except.ok acc' := h
    cases h'
    exact hacc
  | cons b rest ih =>
    intro acc acc' h hacc
    rw [List.foldlM_cons] at h
    cases hb : f acc b with
    | error e => rw [hb] at h; exact Except.noConfusion h
    | ok acc1 =>
      rw [hb] at h
      exact ih acc1 acc' h (hf acc b acc1 hb hacc)

/-- Every note selected by the change-collection loops exists on disk
(its `os.Stat` succeeded). -/
theorem collectChanges_stat (env : Env) (notes : List Note)
    (h : collectChanges env = .ok notes) :
    ∀ n ∈ notes, (env.stat n.Path).isSome = true := by
  unfold collectChanges at h
  cases h1 : env.untracked.foldlM (untrackedStep env) [] with
  | error e => rw [h1] at h; exact Except.noConfusion h
  | ok acc =>
    rw [h1] at h
    have hu : ∀ n ∈ acc, (env.stat n.Path).isSome = true :=
      foldlM_note_inv (untrackedStep env) _
        (fun a b a' hb ha => untrackedStep_stat env a a' b hb ha) env.untracked [] acc h1
        (by intro n hn; cases hn)
    exact foldlM_note_inv (diffStep env) _
      (fun a b a' hb ha => diffStep_stat env a a' b hb ha) env.diffNames acc notes h hu

/-- Folding `Note.process` over notes whose paths all differ from `fn`
leaves the three category-map entries of `fn` untouched. -/
theorem foldProcess_other_key (env : Env) (fn : String) :
    ∀ (notes : List Note) (j j' : Journal),
      (∀ n ∈ notes, n.Path ≠ fn) →
      notes.foldlM (processChangesStep env) j = .ok j' →
      mapLookup fn j'.Doings = mapLookup fn j.Doings ∧
      mapLookup fn j'.Todos = mapLookup fn j.Todos ∧
      mapLookup fn j'.Laters = mapLookup fn j.Laters := by
  intro notes
  induction notes with
  | nil =>
    intro j j' _ h
    have h' : Except.ok j = Except.ok j' := h
    cases h'
    exact ⟨rfl, rfl, rfl⟩
  | cons nn rest ih =>
    intro j j' hne h
    rw [List.foldlM_cons] at h
    cases hp : processChangesStep env j nn with
    | error e => rw [hp] at h; exact Except.noConfusion h
    | ok j1 =>
      rw [hp] at h
      have h1 : rest.foldlM (processChangesStep env) j1 = .ok j' := h
      obtain ⟨d1, t1, l1⟩ :=
        process_other_key nn j (env.openF nn.Path) env.now j1 fn
          (hne nn (List.mem_cons_self nn rest)) hp
      obtain ⟨d2, t2, l2⟩ := ih j1 j' (fun n hn => hne n (List.mem_cons_of_mem nn hn)) h1
      exact ⟨d2.trans d1, t2.trans t1, l2.trans l1⟩

/-- C4 counterexample: the previously-tagged note `a.md` has been deleted
(`stat` fails everywhere) and the incremental rescan lists it among the
files changed since the marker revision, yet the pass returns the journal
unchanged: the entries of `a.md` survive in all three category mappings. -/
theorem C4_counterexample :
    c4j.Hash ≠ "" ∧
    c4j.processChanges c4env = .ok c4j ∧
    mapLookup "a.md" c4j.Doings = some [c4tag] ∧
    mapLookup "a.md" c4j.Todos = some [c4tag] ∧
    mapLookup "a.md" c4j.Laters = some [c4tag] := by
  refine ⟨by decide, by decide, by decide, by decide, by decide⟩

/-- C4 (amended): if a note's file is missing (`stat` fails on its path),
a completed incremental rescan leaves that note's entries in all three
category mappings exactly as they were — the existence filter of
`processChanges` prevents the changed-but-missing note from ever being
reprocessed, so nothing is removed. -/
theorem C4_amended (j : Journal) (env : Env) (j' : Journal) (fn : String)
    (h0 : j.Hash ≠ "") (hs : env.stat fn = none)
    (h : j.processChanges env = .ok j') :
    mapLookup fn j'.Doings = mapLookup fn j.Doings ∧
    mapLookup fn j'.Todos = mapLookup fn j.Todos ∧
    mapLookup fn j'.Laters = mapLookup fn j.Laters := by
  unfold Journal.processChanges at h
  rw [if_neg (by simpa using h0)] at h
  cases hc : collectChanges env with
  | error e => rw [hc] at h; exact Except.noConfusion h
  | ok changes =>
    rw [hc] at h
    have hstat := collectChanges_stat env changes hc
    refine foldProcess_other_key env fn changes j j' ?_ h
    intro n hn hpath
    have := hstat n hn
    rw [hpath, hs] at this
    exact Bool.noConfusion this

/-- C4 witness: the unchanged-entries guarantee instantiated at the concrete
deleted-note scenario. -/
theorem C4_amended_witness :
    mapLookup "a.md" c4j.Doings = mapLookup "a.md" c4j.Doings ∧
    mapLookup "a.md" c4j.Todos = mapLookup "a.md" c4j.Todos ∧
    mapLookup "a.md" c4j.Laters = mapLookup "a.md" c4j.Laters :=
  C4_amended c4j c4env c4j "a.md" (by decide) (by decide) (by decide)

theorem isEmpty_false_ne_nil {α : Type} {l : List α} (h : ¬l.isEmpty = true) : l ≠ [] := by
  intro hnil
  subst hnil
  exact h rfl

/-- C5 (amended): rendering is a deterministic function of the aggregation
state together with the maps' enumeration orders: the document has the
DOING/TODO/LATER sections in that fixed order, and each section lists
exactly the tags of its category (a permutation of the collected tags) in
weakly-descending effective-timestamp order.  Cross-run byte-identity holds
whenever the enumeration order is fixed; the counterexample shows it fails
when tags of distinct notes tie on the timestamp and the Go map happens to
be enumerated in a different order on the second run. -/
theorem C5_amended (j : Journal) :
    j.indexDoc =
      "# DOING\n\n" ++ writeTagsStr j.Doings ++ "\n# TODO\n\n" ++ writeTagsStr j.Todos ++
        "\n# LATER\n\n" ++ writeTagsStr j.Laters ∧
    (∀ m : List (String × List Tag),
      (sortTags (collectTags m)).Perm (collectTags m) ∧
      List.Sorted tagGE (sortTags (collectTags m)) ∧
      writeTagsStr m = String.join ((sortTags (collectTags m)).map (fun t => t.Text ++ "\n"))) :=
  ⟨rfl, fun m =>
    ⟨List.perm_insertionSort tagGE (collectTags m),
     List.sorted_insertionSort tagGE (collectTags m), rfl⟩⟩

/-- C5 counterexample: `c5m1` and `c5m2` are the same Doing mapping (same
entries, hence equal lookups — only the enumeration order differs, as Go's
randomized map iteration permits), their two tags carry the same effective
timestamp, yet the rendered documents differ.  So two runs of `render` on
the same three mappings need not produce the identical document. -/
theorem C5_counterexample :
    c5m2.Perm c5m1 ∧
    mapLookup "a.md" c5m1 = mapLookup "a.md" c5m2 ∧
    mapLookup "b.md" c5m1 = mapLookup "b.md" c5m2 ∧
    c5j1.Doings = c5m1 ∧
    c5j2.Doings = c5m2 ∧
    c5j1.Todos = c5j2.Todos ∧
    c5j1.Laters = c5j2.Laters ∧
    c5t1.Time = c5t2.Time ∧
    c5j1.indexDoc ≠ c5j2.indexDoc := by
  refine ⟨List.Perm.swap _ _ _, by decide, by decide, rfl, rfl, rfl, rfl, by decide, by decide⟩

/-- The full-rescan walk with its skip branches processes exactly the
`selectAll`-filtered files, in order. -/
theorem walkFold_eq_filter (env : Env) :
    ∀ (tree : List String) (j0 : Journal),
      tree.foldlM (processAllStep env) j0 =
        (tree.filter selectAll).foldlM (processNoteAt env) j0 := by
  intro tree
  induction tree with
  | nil => intro j0; rfl
  | cons p rest ih =>
    intro j0
    rw [List.foldlM_cons]
    by_cases hg : underGit p
    · rw [List.filter_cons_of_neg (by simp [selectAll, hg])]
      have hstep : processAllStep env j0 p = .ok j0 := by simp [processAllStep, hg]
      rw [hstep]
      exact ih j0
    · by_cases hidx : baseName p == "index.md"
      · rw [List.filter_cons_of_neg (by simp [selectAll, hidx])]
        have hstep : processAllStep env j0 p = .ok j0 := by simp [processAllStep, hg, hidx]
        rw [hstep]
        exact ih j0
      · by_cases hmd : strEndsWith p ".md"
        · rw [List.filter_cons_of_pos (by simp [selectAll, hmd, hidx, hg])]
          rw [List.foldlM_cons]
          have hstep : processAllStep env j0 p = processNoteAt env j0 p := by
            simp [processAllStep, hg, hidx, hmd]
          rw [hstep]
          cases hr : processNoteAt env j0 p with
          | error e => rfl
          | ok j1 => exact ih j1
        · rw [List.filter_cons_of_neg (by simp [selectAll, hmd])]
          have hstep : processAllStep env j0 p = .ok j0 := by simp [processAllStep, hg, hidx, hmd]
          rw [hstep]
          exact ih j0

/-- C6: with an empty synchronization marker, `processChanges` performs a
full rescan — the whole aggregation state (three category maps and the
diary index) is reset to empty, and then exactly the `.md` files of the
tree enumeration that are not named `index.md` (at any depth) and are not
under the pruned `.git` directory are classified and processed, in walk
order. -/
theorem C6_full_rescan (j : Journal) (env : Env) (h : j.Hash = "") :
    j.processChanges env =
      (env.tree.filter selectAll).foldlM (processNoteAt env) (resetJournal j) ∧
    resetJournal j = ⟨j.Hash, [], [], [], []⟩ := by
  constructor
  · unfold Journal.processChanges
    rw [if_pos (by simp [h])]
    unfold Journal.processAll
    exact walkFold_eq_filter env env.tree _
  · rfl

/-- C6 witness: the full-rescan equation instantiated at a concrete tree
containing a root `index.md`, a nested `sub/index.md`, a `.git` file, a
non-markdown file and two genuine notes. -/
theorem C6_full_rescan_witness :
    c6j.processChanges c6env =
      (c6env.tree.filter selectAll).foldlM (processNoteAt c6env) (resetJournal c6j) ∧
    resetJournal c6j = ⟨c6j.Hash, [], [], [], []⟩ :=
  C6_full_rescan c6j c6env rfl

/-- C8: after a successful scan of an openable, non-index note commits, the
note's path is a key of each category map exactly when the scan produced at
least one tag in that category (bound to precisely the scanned list), and
the no-empty-list invariant of each map is preserved. -/
theorem C8_commit (j : Journal) (n : Note) (lines : List String) (now : DateTime)
    (st : ScanState) (j' : Journal)
    (hg : indexGuard n.Path = false)
    (hscan : scanNote n lines = .ok st)
    (hrun : n.process j (.ok lines) now = .ok j') :
    (mapLookup n.Path j'.Doings = if st.doings.isEmpty then none else some st.doings) ∧
    (mapLookup n.Path j'.Todos = if st.todos.isEmpty then none else some st.todos) ∧
    (mapLookup n.Path j'.Laters = if st.laters.isEmpty then none else some st.laters) ∧
    (noEmptyMap j.Doings → noEmptyMap j'.Doings) ∧
    (noEmptyMap j.Todos → noEmptyMap j'.Todos) ∧
    (noEmptyMap j.Laters → noEmptyMap j'.Laters) := by
  obtain ⟨st2, hs2, hr⟩ := process_ok_elim n j lines now j' hg hrun
  rw [hscan] at hs2
  cases hs2
  obtain ⟨-, hD, hT, hL⟩ := recordDiary_maps _ _ _ _ hr
  rw [hD, hT, hL]
  simp only [commitTags]
  refine ⟨?_, ?_, ?_, ?_, ?_, ?_⟩
  · split
    · exact mapLookup_mapDelete_self _ _
    · exact mapLookup_mapSet_self _ _ _
  · split
    · exact mapLookup_mapDelete_self _ _
    · exact mapLookup_mapSet_self _ _ _
  · split
    · exact mapLookup_mapDelete_self _ _
    · exact mapLookup_mapSet_self _ _ _
  · intro hne
    split
    · exact noEmptyMap_mapDelete _ _ hne
    · exact noEmptyMap_mapSet _ _ _ (isEmpty_false_ne_nil (by assumption)) hne
  · intro hne
    split
    · exact noEmptyMap_mapDelete _ _ hne
    · exact noEmptyMap_mapSet _ _ _ (isEmpty_false_ne_nil (by assumption)) hne
  · intro hne
    split
    · exact noEmptyMap_mapDelete _ _ hne
    · exact noEmptyMap_mapSet _ _ _ (isEmpty_false_ne_nil (by assumption)) hne

/-- C8 witness: the commit postcondition instantiated at the scenario note
scanned over a journal that already tracks a different note. -/
theorem C8_commit_witness :
    (mapLookup c7note.Path c8res.Doings =
      if c7scan.doings.isEmpty then none else some c7scan.doings) ∧
    (mapLookup c7note.Path c8res.Todos =
      if c7scan.todos.isEmpty then none else some c7scan.todos) ∧
    (mapLookup c7note.Path c8res.Laters =
      if c7scan.laters.isEmpty then none else some c7scan.laters) ∧
    (noEmptyMap c8j.Doings → noEmptyMap c8res.Doings) ∧
    (noEmptyMap c8j.Todos → noEmptyMap c8res.Todos) ∧
    (noEmptyMap c8j.Laters → noEmptyMap c8res.Laters) :=
  C8_commit c8j c7note c7lines c8now c7scan c8res (by decide) (by decide) (by decide)

/-- One incremental pass of `c10env` starting from `c10state N` appends one
more copy of the diary pair. -/
theorem c10_step (N : Nat) :
    (c10state N).processChanges c10env = .ok (c10state (N + 1)) := by
  have h : (c10state N).processChanges c10env =
      .ok ⟨"h", [], [], [],
        [("2026-09", List.replicate N ("15", c10path) ++ [("15", c10path)])]⟩ := rfl
  rw [h, ← List.replicate_succ']
  rfl

/-- C10: the diary index appends without deduplication and incremental
passes never reset it: after `N` incremental passes that each reach the
recording step for the same qualifying diary note, the `"2026-09"` entry
list holds exactly `N` identical copies of the note's `(day, path)` pair. -/
theorem C10_repeat_append :
    ∀ N, c10iter N = .ok (c10state N) ∧
      diaryEntries (c10iter N) "2026-09" = List.replicate N ("15", c10path) := by
  intro N
  induction N with
  | zero => exact ⟨rfl, rfl⟩
  | succ n ih =>
    have h1 : c10iter (n + 1) = (c10state n).processChanges c10env := by
      simp only [c10iter, ih.1]
    constructor
    · rw [h1, c10_step]
    · rw [h1, c10_step]
      rfl
